import Mathlib

/-!
# Verification of the naive-os process / file-descriptor core

Shallow embedding of `src/os/kernel/src/syscall/process.rs`,
`src/os/kernel/src/syscall/fs.rs` and `src/os/kernel/src/task/mod.rs`.

Machine integers: pids, fds and lengths are `usize` and stay small
non-negative values in every modelled operation, so they are embedded as
`Nat`; syscall return values and exit codes are `isize`/`i32` and are
embedded as `Int`, with the `isize` wrap-around made explicit where a
value is shifted (`exit_code << 8`).

The repository's `Thread`/`Process` generation of the task module
(`Children` with its `alive`/`zombie` `BTreeMap`s, `turn_into_zombie`,
`PID_ALLOCATOR`, the `TrapFrame` layout, and the `fs/file.rs` inode
implementations) is not under `src/`; those parts are modelled from the
spec, and each such definition is marked `Modelled from the spec:` in
its doc comment.  Everything else is translated from the source.
-/

namespace NaiveOS

/-- Process lifecycle states, from `task/mod.rs` (`enum ProcessState`). -/
inductive ProcessState where
  | READY
  | RUNNING
  | ZOMBIE
  | KILLED
  | EMPTY
deriving DecidableEq

/-- The per-child record a parent's `alive`/`zombie` maps hold.  In the
source the maps store `Arc<Process>`; the fields this development reads
through that `Arc` are the child's lifecycle state and its exit code
(`process.inner.lock().exit_code`), so the shared record is modelled by
exactly those two fields. -/
structure ChildProc where
  state : ProcessState
  exit_code : Int
deriving DecidableEq

/-- Model of `BTreeMap<usize, Arc<Process>>`: an association list kept
sorted by key, so that `head?` is `first_key_value` (the minimal key)
on sorted maps. -/
abbrev PidMap := List (Nat × ChildProc)

/-- `BTreeMap::insert`: sorted insertion, replacing an existing binding. -/
def btInsert (k : Nat) (v : ChildProc) : PidMap → PidMap
  | [] => [(k, v)]
  | (k', v') :: t =>
    if k < k' then (k, v) :: (k', v') :: t
    else if k = k' then (k, v) :: t
    else (k', v') :: btInsert k v t

/-- `BTreeMap::remove` / `remove_entry`: drop the binding for `k`. -/
def btRemove (k : Nat) (m : PidMap) : PidMap :=
  m.filter (fun e => e.1 ≠ k)

/-- `BTreeMap::get`. -/
def btLookup (k : Nat) : PidMap → Option ChildProc
  | [] => none
  | (k', v) :: t => if k' = k then some v else btLookup k t

/-- `BTreeMap::first_key_value` on the sorted-list model: the head.
(`btFirst?_sorted_min` relates it to the minimal key.) -/
def btFirst? (m : PidMap) : Option (Nat × ChildProc) :=
  m.head?

/-- The keys bound in a map. -/
def btKeys : PidMap → List Nat
  | [] => []
  | e :: t => e.1 :: btKeys t

/-- Sortedness (strictly ascending keys), the `BTreeMap` representation
invariant of the model. -/
def btSorted (m : PidMap) : Prop :=
  List.Pairwise (fun a b => a.1 < b.1) m

instance (m : PidMap) : Decidable (btSorted m) := by
  unfold btSorted; infer_instance

/-- A parent's two child collections, from the `Process` wrapper
described in the spec and manipulated by `sys_clone` / `sys_exit` /
`sys_waitpid` (`pcb.children.alive`, `pcb.children.zombie`). -/
structure Children where
  alive : PidMap
  zombie : PidMap
deriving DecidableEq

/-- Modelled from the spec: `Children::turn_into_zombie` lives in the
`Thread`/`Process` generation of the task module, which is not under
`src/`; per the spec, `exit` "moves this process's pid from the
parent's `alive` map into the parent's `zombie` map".  The map values
are `Arc`s shared with the exiting child, whose state and exit code
`sys_exit` has already overwritten before the call, so the record that
appears in `zombie` is the updated one, passed here as `proc`.  A pid
not present in `alive` is not moved. -/
def Children.turn_into_zombie (c : Children) (pid : Nat) (proc : ChildProc) : Children :=
  if (btLookup pid c.alive).isSome then
    { alive := btRemove pid c.alive, zombie := btInsert pid proc c.zombie }
  else
    c

/-- The `isize` wrap-around: interpret an unbounded integer as the
64-bit two's-complement value with the same low bits. -/
def isizeWrap (x : Int) : Int :=
  (x + 2 ^ 63) % 2 ^ 64 - 2 ^ 63

/-- The status value `sys_waitpid` stores: `(exit_code << 8) | 0` on
`isize`. -/
def statusOf (exitCode : Int) : Int :=
  isizeWrap (exitCode * 2 ^ 8)

/-- Result of `sys_exit` (`process.rs`, `Thread::sys_exit`). -/
structure ExitResult where
  /-- The caller's PCB after the call (`proc.state`, `proc.exit_code`). -/
  self : ChildProc
  /-- The parent's child collections after the call, when a parent exists. -/
  parent : Option Children
  /-- Whether `shutdown()` was invoked (no-parent branch). -/
  shutdown : Bool
  /-- The returned value (never observed when `shutdown` is true). -/
  ret : Int
deriving DecidableEq

/-- `Thread::sys_exit` (`process.rs` lines 85-101): set the caller's
state to `ZOMBIE`, store the exit code, then either move the caller's
pid into the parent's `zombie` map (`turn_into_zombie`) or, with no
parent, shut the whole system down.  `exit_code` is the `i32` argument
sign-extended to `isize` (value-preserving). -/
def sys_exit (selfPid : Nat) (parent : Option Children) (exit_code : Int) : ExitResult :=
  let self' : ChildProc := { state := .ZOMBIE, exit_code := exit_code }
  match parent with
  | some ch => { self := self', parent := some (ch.turn_into_zombie selfPid self'), shutdown := false, ret := 0 }
  | none => { self := self', parent := none, shutdown := true, ret := 0 }

/-- Outcome of one poll of `sys_waitpid`: either the syscall returns
(`ret` value, updated child collections, and the value stored through
the user status pointer, if any), or it reaches
`Thread::async_yield().await` with the state unchanged and is polled
again later. -/
inductive WaitStep where
  | ret (v : Int) (children : Children) (written : Option Int)
  | yield
deriving DecidableEq

/-- `Thread::sys_waitpid` (`process.rs` lines 243-294), one poll.
Mirrors the source: the leading no-children check (`alive.len() +
zombie.len() == 0`) returns 0 when `options > 0` and −1 otherwise; the
`pid == -1` branch yields while `zombie` is empty (returning 0 first
when `options > 0`), and otherwise removes `first_key_value` and
returns its pid, storing `(exit_code << 8) | 0` when the status
pointer is non-null; the specific-pid branch looks up `pid as usize`
in `zombie` only, removes it and falls through to `return 0` on a hit,
and returns −1 on a miss.  `statusNull` is `status.as_usize() == 0`. -/
def sys_waitpid_step (ch : Children) (pid : Int) (statusNull : Bool) (options : Nat) : WaitStep :=
  if ch.alive.length + ch.zombie.length = 0 then
    .ret (if 0 < options then 0 else -1) ch none
  else if pid = -1 then
    match btFirst? ch.zombie with
    | none => if 0 < options then .ret 0 ch none else .yield
    | some (zpid, zproc) =>
      .ret zpid { alive := ch.alive, zombie := btRemove zpid ch.zombie }
        (if statusNull then none else some (statusOf zproc.exit_code))
  else
    match btLookup (pid % 2 ^ 64).toNat ch.zombie with
    | some zproc =>
      .ret 0 { alive := ch.alive, zombie := btRemove (pid % 2 ^ 64).toNat ch.zombie }
        (if statusNull then none else some (statusOf zproc.exit_code))
    | none => .ret (-1) ch none

/-- Modelled from the spec: `TrapFrame` lives in `trap/mod.rs`, which
is not under `src/`.  Per the glossary it is "the saved register
snapshot captured when control crosses from user mode into the
kernel"; the fields `sys_clone` touches are the general-purpose
registers `x[0..32]` (`x[10]` return value, `x[2]` stack pointer,
`x[4]` thread pointer) and the `kernel_sp` field it repoints at the
child's kernel stack. -/
structure TrapFrame where
  x : Fin 32 → Nat
  kernel_sp : Nat

/-- The union of the `CloneFlags` bits `process.rs` defines: bits 7
(`CLONE_NEWTIME`) through 24 (`CLONE_CHILD_SETTID`), i.e.
`0x01FFFF80`. -/
def cloneFlagsAll : Nat := 0x01FFFF80

/-- `CloneFlags::from_bits(flags as u32 & (!0x3f))` succeeds
(`process.rs` line 117): the flags word truncated to `u32` and with
its low six bits masked off must contain no bit outside the defined
`CloneFlags` bits — otherwise `from_bits` yields `None` and the
`.unwrap()` panics the kernel. -/
def cloneFlagsValid (flags : Nat) : Bool :=
  (flags % 2 ^ 32) &&& 0xFFFFFFC0 &&& cloneFlagsAll ==
    (flags % 2 ^ 32) &&& 0xFFFFFFC0

/-- `CloneFlags::CLONE_SETTLS` (`process.rs`): bit 19 of the flags
word.  `sys_clone` reads it on the truncated-and-masked word, but both
the `u32` truncation and the `!0x3f` mask preserve bit 19, so this is
bit 19 of the raw argument. -/
def cloneSETTLS (flags : Nat) : Bool :=
  flags.testBit 19

/-- What `sys_clone` produces, as observed through the claims: the
child's trap frame, the child PCB's state and pid, the parent's
updated `alive` map, the advanced pid allocator, and the value
returned to the parent. -/
structure CloneResult where
  childTf : TrapFrame
  childState : ProcessState
  childPid : Nat
  alive : PidMap
  nextPid : Nat
  ret : Int

/-- The child record `sys_clone` registers: `PCB::new()` initialises
`exit_code` to 0 and `sys_clone` then sets `state = READY`. -/
def cloneChildRecord : ChildProc :=
  { state := .READY, exit_code := 0 }

/-- The body of `Thread::sys_clone` after the `CloneFlags` unwrap has
succeeded (`process.rs` lines 118-166): the child's trap frame is the
parent's copied wholesale, then `x[10] = 0`, then `kernel_sp =
TRAMPOLINE - KERNEL_STACK_SIZE * new_pid` unconditionally, then
`x[2] = stack` when `stack != 0` and `x[4] = tls` when `CLONE_SETTLS`
is set.  The new process is inserted into the parent's `alive` map
under `new_pid`, which is returned. -/
def cloneChild (trampoline kstackSize : Nat) (parentTf : TrapFrame) (parentAlive : PidMap)
    (nextPid : Nat) (flags stack tls : Nat) : CloneResult :=
  let new_pid := nextPid
  let tf1 : TrapFrame :=
    { x := fun i => if i = (10 : Fin 32) then 0 else parentTf.x i
      kernel_sp := parentTf.kernel_sp }
  let tf2 : TrapFrame := { tf1 with kernel_sp := trampoline - kstackSize * new_pid }
  let tf3 : TrapFrame :=
    if stack ≠ 0 then { tf2 with x := fun i => if i = (2 : Fin 32) then stack else tf2.x i }
    else tf2
  let tf4 : TrapFrame :=
    if cloneSETTLS flags then { tf3 with x := fun i => if i = (4 : Fin 32) then tls else tf3.x i }
    else tf3
  { childTf := tf4
    childState := .READY
    childPid := new_pid
    alive := btInsert new_pid cloneChildRecord parentAlive
    nextPid := new_pid + 1
    ret := (new_pid : Int) }

/-- `Thread::sys_clone` (`process.rs` lines 111-167).  `trampoline`
and `kstackSize` are the `TRAMPOLINE` and `KERNEL_STACK_SIZE`
constants of `config.rs` (not under `src/`), kept as parameters;
`nextPid` is the `PID_ALLOCATOR` counter, so `new_pid = nextPid`.
`CloneFlags::from_bits(flags as u32 & (!0x3f)).unwrap()` (line 117)
panics the kernel — `none` here — when the flags word carries bit 6 or
any bit at or above 25, before any trap-frame copy or registration;
otherwise the call proceeds as `cloneChild`. -/
def sys_clone (trampoline kstackSize : Nat) (parentTf : TrapFrame) (parentAlive : PidMap)
    (nextPid : Nat) (flags stack tls : Nat) : Option CloneResult :=
  if cloneFlagsValid flags then
    some (cloneChild trampoline kstackSize parentTf parentAlive nextPid flags stack tls)
  else
    none

/-- The state of one parent's corner of the process tree: its child
collections and the `PID_ALLOCATOR` counter (pids are allocated
monotonically, so every pid ever handed out is below `nextPid`). -/
structure PTree where
  children : Children
  nextPid : Nat

/-- The transitions that touch a parent's `alive`/`zombie` maps, each
tied to the corresponding syscall model: `sys_clone` inserting the
fresh pid into `alive`, a child's `sys_exit` moving its pid from
`alive` to `zombie`, and any returning poll of the parent's
`sys_waitpid` (which removes a reaped pid from `zombie`). -/
inductive PStep : PTree → PTree → Prop
  | clone (ch : Children) (n : Nat) (trampoline kstackSize flags stack tls : Nat)
      (ptf : TrapFrame) (r : CloneResult) :
      sys_clone trampoline kstackSize ptf ch.alive n flags stack tls = some r →
      PStep ⟨ch, n⟩ ⟨{ alive := r.alive, zombie := ch.zombie }, r.nextPid⟩
  | exit (ch : Children) (n : Nat) (p : Nat) (code : Int) (ch' : Children) :
      (sys_exit p (some ch) code).parent = some ch' →
      PStep ⟨ch, n⟩ ⟨ch', n⟩
  | wait (ch : Children) (n : Nat) (pid : Int) (statusNull : Bool) (options : Nat)
      (v : Int) (ch' : Children) (written : Option Int) :
      sys_waitpid_step ch pid statusNull options = .ret v ch' written →
      PStep ⟨ch, n⟩ ⟨ch', n⟩

/-- Reachability of process-tree states through the three syscalls. -/
def PReach : PTree → PTree → Prop :=
  Relation.ReflTransGen PStep

/-- A pid is tracked by the parent if it is in either child map. -/
def tracked (ch : Children) (p : Nat) : Prop :=
  p ∈ btKeys ch.alive ∨ p ∈ btKeys ch.zombie

/-- The disjointness invariant of claim C1: no pid is in both of the
parent's child maps. -/
def keysDisjoint (ch : Children) : Prop :=
  ∀ p : Nat, ¬(p ∈ btKeys ch.alive ∧ p ∈ btKeys ch.zombie)

/-- Every tracked pid is below the allocator counter (pids are handed
out monotonically). -/
def boundBy (ch : Children) (n : Nat) : Prop :=
  ∀ p : Nat, tracked ch p → p < n

/-- Full inductive invariant: disjointness together with every tracked
pid being below the allocator counter. -/
def PInv (s : PTree) : Prop :=
  keysDisjoint s.children ∧ boundBy s.children s.nextPid

/-! ## File-descriptor / open-file / inode layer (`fs.rs`, `task/mod.rs`) -/

/-- The payload of an inode.  Modelled from the spec for the variants:
`fs/file.rs` (with `RegFileINode`, `PipeINode`, `TerminalINode` and
the `INode` trait) is not under `src/`; per the spec, an inode is a
regular file (owning its bytes), a pipe endpoint (referencing one
shared byte buffer, here by index into the global buffer list), or a
terminal. -/
inductive INodeKind where
  | reg (data : List Nat)
  | pipe (bufId : Nat)
  | terminal
deriving DecidableEq

/-- The in-kernel inode value behind one `Arc<Mutex<dyn INode>>`.
`name`/`dir` are the `RegFileINode` fields `sys_openat` fills
(`file_name()` returns `name`); `listing` models the `list()`
capability (`none` = `Err`, which is what a regular file returns). -/
structure INodeV where
  name : String
  dir : String
  kind : INodeKind
  listing : Option (List String)
deriving DecidableEq

/-- `OpenFile` (`task/mod.rs`): cursor, status flags, and the shared
inode, referenced by its index in the inode store (`Arc` identity). -/
structure OpenFileV where
  offset : Nat
  status_flags : Nat
  inode : Nat
deriving DecidableEq

instance : Inhabited OpenFileV := ⟨⟨0, 0, 0⟩⟩

/-- `FileDescriptor` (`task/mod.rs`): the shared `Arc<OpenFile>` is
referenced by its index in the open-file store (`Arc` identity), so
two descriptors share an `OpenFile` exactly when they carry the same
index. -/
structure FileDescriptorV where
  open_file : Nat
  readable : Bool
  writable : Bool
deriving DecidableEq

instance : Inhabited FileDescriptorV := ⟨⟨0, false, false⟩⟩

/-- The kernel state the `fs.rs` syscalls touch for one process:
the `Arc` stores for inodes and open files (an `Arc::new` is an
append; the index is the identity), the global dentry cache, the
global open-file table, the global pipe-buffer list, the caller's fd
table (`fd_manager.fd_array`) and working directory. -/
structure FsState where
  inodes : List INodeV
  openFiles : List OpenFileV
  dentry : List (String × Nat)
  globalOpen : List OpenFileV
  buffers : List (List Nat)
  fdTable : List FileDescriptorV
  cwd : String
deriving DecidableEq

/-- Well-formedness of an `FsState`: every descriptor references an
allocated open file and every open file an allocated inode (true of
every state the kernel builds, since `Arc`s are only ever created by
the allocation paths modelled here). -/
def FsWF (s : FsState) : Prop :=
  (∀ d ∈ s.fdTable, d.open_file < s.openFiles.length) ∧
  (∀ of ∈ s.openFiles, of.inode < s.inodes.length)

instance (s : FsState) : Decidable (FsWF s) := by
  unfold FsWF; infer_instance

/-- `GlobalDentryCache::get` (`task/mod.rs`). -/
def dcGet (p : String) : List (String × Nat) → Option Nat
  | [] => none
  | (q, i) :: t => if q = p then some i else dcGet p t

/-- `GlobalDentryCache::insert` (`task/mod.rs`): `HashMap::insert`,
overwriting an existing binding for the path. -/
def dcInsert (p : String) (i : Nat) : List (String × Nat) → List (String × Nat)
  | [] => [(p, i)]
  | (q, j) :: t => if q = p then (p, i) :: t else (q, j) :: dcInsert p i t

/-- The `file_name()` of the inode with identity `iid` (empty string
for a dangling identity, which well-formed states rule out). -/
def inodeName (s : FsState) (iid : Nat) : String :=
  ((s.inodes.getD iid ⟨"", "", .terminal, none⟩).name)

/-- The inode identity a descriptor points at
(`fd_ref.open_file.inode`). -/
def fdInode (s : FsState) (d : FileDescriptorV) : Nat :=
  (s.openFiles.getD d.open_file default).inode

/-- `is_pipe()` of the inode a descriptor points at. -/
def fdIsPipe (s : FsState) (d : FileDescriptorV) : Bool :=
  match (s.inodes.getD (fdInode s d) ⟨"", "", .terminal, none⟩).kind with
  | .pipe _ => true
  | _ => false

/-- `file_data()` of the inode with identity `iid`: a regular file's
own bytes, or a pipe's shared buffer. -/
def inodeData (s : FsState) (iid : Nat) : List Nat :=
  match (s.inodes.getD iid ⟨"", "", .terminal, none⟩).kind with
  | .reg data => data
  | .pipe b => s.buffers.getD b []
  | .terminal => []

/-- Modelled from the spec: `RegFileINode::new("/", "null", …)`, the
placeholder behind `OpenFile::new()` — a fresh empty regular file
named "null" (`fs/file.rs` is not under `src/`). -/
def nullINode : INodeV :=
  { name := "null", dir := "/", kind := .reg [], listing := none }

/-- `OpenFile::new()` (`task/mod.rs`): a default open file over a
fresh "null" inode.  Returns the state with the fresh inode and open
file appended, and the new open file's identity. -/
def openFileNew (s : FsState) : FsState × Nat :=
  let nI := s.inodes.length
  let nO := s.openFiles.length
  ({ s with
      inodes := s.inodes ++ [nullINode]
      openFiles := s.openFiles ++ [⟨0, 0, nI⟩] }, nO)

/-- Modelled from the spec: the stdin/stdout/stderr
`TerminalINode`s (`fs/file.rs` is not under `src/`). -/
def terminalINode (nm : String) : INodeV :=
  { name := nm, dir := "/", kind := .terminal, listing := none }

/-- `FdManager::new()` (`task/mod.rs`): slots 0, 1, 2 are stdin
(readable only), stdout and stderr (each writable only), over three
fresh terminal open files.  `initFs` is the resulting whole state for
a fresh process: empty dentry cache, global tables and buffer list,
root working directory. -/
def initFs : FsState :=
  { inodes := [terminalINode "stdin", terminalINode "stdout", terminalINode "stderr"]
    openFiles := [⟨0, 0, 0⟩, ⟨0, 0, 1⟩, ⟨0, 0, 2⟩]
    dentry := []
    globalOpen := []
    buffers := []
    fdTable :=
      [⟨0, true, false⟩, ⟨1, false, true⟩, ⟨2, false, true⟩]
    cwd := "/" }

/-- `FdManager::close` (`task/mod.rs` lines 141-151): out-of-range is
a no-op; a descriptor currently marked readable or writable is left
untouched ("Do nothing"); otherwise the slot's open file is replaced
by a fresh `OpenFile::new()`. -/
def fdManagerClose (s : FsState) (fd : Nat) : FsState :=
  match s.fdTable.get? fd with
  | none => s
  | some d =>
    if d.readable || d.writable then s
    else
      let (s', nO) := openFileNew s
      { s' with fdTable := s'.fdTable.set fd { d with open_file := nO } }

/-- `sys_close` (`fs.rs` lines 175-183): −1 when `fd` is at or beyond
the table length, otherwise `FdManager::close` and 0. -/
def sys_close (s : FsState) (fd : Nat) : FsState × Int :=
  if s.fdTable.length ≤ fd then (s, -1)
  else (fdManagerClose s fd, 0)

/-- First index satisfying the predicate (the scan loops of `sys_dup`
and `sys_openat`). -/
def firstIdx (p : α → Bool) : List α → Option Nat
  | [] => none
  | a :: t => if p a then some 0 else (firstIdx p t).map (· + 1)

/-- `sys_dup` (`fs.rs` lines 460-495): −1 when `fd` is out of range or
the source descriptor is fully closed; otherwise `new_fd` is the first
fully-closed slot (or the table length when none exists), a descriptor
sharing the source's `OpenFile` is `push`ed onto the end of the table
— not written at `new_fd` — and `new_fd` is returned. -/
def sys_dup (s : FsState) (fd : Nat) : FsState × Int :=
  if s.fdTable.length ≤ fd then (s, -1)
  else
    let d := s.fdTable.getD fd default
    if !d.readable && !d.writable then (s, -1)
    else
      let new_fd :=
        match firstIdx (fun e => !e.readable && !e.writable) s.fdTable with
        | some i => i
        | none => s.fdTable.length
      ({ s with
          fdTable := s.fdTable ++
            [⟨d.open_file, d.readable, d.writable⟩] },
       (new_fd : Int))

/-- `sys_dup3` (`fs.rs` lines 499-543): −1 when `fd` is out of range
or fully closed; otherwise the table is grown up to `new_fd` with
fully-closed placeholders (each over its own fresh `OpenFile::new()`),
slot `new_fd` is overwritten with a descriptor sharing the source's
`OpenFile`, and `new_fd` is returned. -/
def sys_dup3 (s : FsState) (fd new_fd : Nat) : FsState × Int :=
  if s.fdTable.length ≤ fd then (s, -1)
  else
    let d := s.fdTable.getD fd default
    if !d.readable && !d.writable then (s, -1)
    else
      let grow : Nat → FsState → FsState := fun k s0 =>
        Nat.rec s0
          (fun _ acc =>
            let (acc', nO) := openFileNew acc
            { acc' with fdTable := acc'.fdTable ++ [⟨nO, false, false⟩] }) k
      let s1 :=
        if s.fdTable.length ≤ new_fd then grow (new_fd + 1 - s.fdTable.length) s
        else s
      ({ s1 with
          fdTable := s1.fdTable.set new_fd ⟨d.open_file, d.readable, d.writable⟩ },
       (new_fd : Int))

/-- Modelled from the spec: the `OpenFlags` access-mode bits
(`fs/file.rs` is not under `src/`); POSIX-style `O_RDONLY`/`O_WRONLY`/
`O_RDWR`.  Only their pairwise distinctness is ever used. -/
def oRDONLY : Nat := 0

/-- Modelled from the spec: `OpenFlags::WRONLY`. -/
def oWRONLY : Nat := 1

/-- Modelled from the spec: `OpenFlags::RDWR`. -/
def oRDWR : Nat := 2

/-- The `readable` flag `sys_openat` computes:
`((flags ^ RDONLY) | (flags ^ RDWR)) != 0`. -/
def openReadable (flags : Nat) : Bool :=
  ((flags ^^^ oRDONLY) ||| (flags ^^^ oRDWR)) != 0

/-- The `writable` flag `sys_openat` computes:
`((flags ^ WRONLY) | (flags ^ RDWR)) != 0`. -/
def openWritable (flags : Nat) : Bool :=
  ((flags ^^^ oWRONLY) ||| (flags ^^^ oRDWR)) != 0

/-- `str::starts_with`, on the character-list view of strings (kept
kernel-computable for concrete evaluation). -/
def strStartsWith (s pre : String) : Bool :=
  pre.data.isPrefixOf s.data

/-- Dropping the first `n` characters of a string (the
`strip_prefix(…)` result for an `n`-character literal prefix). -/
def strDrop (s : String) (n : Nat) : String :=
  ⟨s.data.drop n⟩

/-- The path split at the top of `sys_openat`: an absolute path keeps
start directory "/" and loses its leading slash; a relative path is
resolved against the caller's cwd, losing a leading "./". -/
def pathSplit (cwd path : String) : String × String :=
  if strStartsWith path "/" then ("/", strDrop path 1)
  else (cwd, if strStartsWith path "./" then strDrop path 2 else path)

/-- The absolute path `sys_openat` builds:
`format!("{}{}", start_dir_path, rel_path)`. -/
def absPath (cwd path : String) : String :=
  (pathSplit cwd path).1 ++ (pathSplit cwd path).2

/-- `sys_openat` (`fs.rs` lines 56-172).  `dirfd` is accepted and
ignored, as in the source (its use is a `TODO` there).  Cache hit:
a cached inode named "null" fails with −1; otherwise a fresh
`Arc<OpenFile>` over the cached inode is created, and the first fd
whose open file's inode is `Arc::ptr_eq` to the cached one has its
slot overwritten with the new descriptor and its index returned; with
no such fd the descriptor is appended.  Cache miss: a fresh empty
`RegFileINode` (dir = start path, name = relative path) is created,
inserted into the dentry cache and (as a value copy) into the global
open-file table, and a descriptor over it is appended. -/
def sys_openat (s : FsState) (dirfd : Int) (path : String) (flags : Nat) : FsState × Int :=
  let start := (pathSplit s.cwd path).1
  let rel := (pathSplit s.cwd path).2
  let abs := start ++ rel
  match dcGet abs s.dentry with
  | some iid =>
    if inodeName s iid = "null" then (s, -1)
    else
      let nO := s.openFiles.length
      let s1 := { s with openFiles := s.openFiles ++ [⟨0, flags, iid⟩] }
      let newFd : FileDescriptorV := ⟨nO, openReadable flags, openWritable flags⟩
      match firstIdx (fun d => fdInode s1 d == iid) s1.fdTable with
      | some i => ({ s1 with fdTable := s1.fdTable.set i newFd }, (i : Int))
      | none =>
        ({ s1 with fdTable := s1.fdTable ++ [newFd] }, (s1.fdTable.length : Int))
  | none =>
    let nI := s.inodes.length
    let newInode : INodeV := { name := rel, dir := start, kind := .reg [], listing := none }
    let s1 := { s with inodes := s.inodes ++ [newInode] }
    let s2 := { s1 with dentry := dcInsert abs nI s1.dentry }
    let nO := s2.openFiles.length
    let s3 := { s2 with
      openFiles := s2.openFiles ++ [(⟨0, flags, nI⟩ : OpenFileV)]
      globalOpen := s2.globalOpen ++ [(⟨0, flags, nI⟩ : OpenFileV)] }
    let newFd : FileDescriptorV := ⟨nO, openReadable flags, openWritable flags⟩
    ({ s3 with fdTable := s3.fdTable ++ [newFd] }, (s3.fdTable.length : Int))

/-- The `bytes_written` loop of `sys_getdents64`: each entry consumes
`size_of::<Dirent>() + name_len` bytes and the loop breaks as soon as
an entry would overflow the user buffer capacity `cap`. -/
def direntBytes (szDirent cap : Nat) : List String → Nat → Nat
  | [], bw => bw
  | e :: es, bw =>
    if cap < bw + (szDirent + e.length + 1) then bw
    else direntBytes szDirent cap es (bw + (szDirent + e.length + 1))

/-- `sys_getdents64` (`fs.rs` lines 382-456).  `szDirent` is
`size_of::<Dirent>()` (the `Dirent` layout is in the missing
`fs/file.rs`; the value is irrelevant to the claims).  The result is
`none` when the kernel panics: the fd table is indexed with no bounds
check (`fd_manager.fd_array[fd]`), and `len - size_of::<Dirent>()`
underflows on a small `len`.  Otherwise the entries come from the
inode's `list()`, with a failure degraded to a single "." entry, and
the (never negative) byte count written is returned. -/
def sys_getdents64 (s : FsState) (fd : Nat) (len : Nat) (szDirent : Nat) :
    Option (FsState × Int) :=
  match s.fdTable.get? fd with
  | none => none
  | some d =>
    if len < szDirent then none
    else
      let inode := s.inodes.getD (fdInode s d) ⟨"", "", .terminal, none⟩
      let entries := match inode.listing with
        | some es => es
        | none => ["."]
      some (s, (direntBytes szDirent len entries 0 : Int))

/-- `sys_mkdirat` (`fs.rs` lines 547-603).  An out-of-range fd returns
0 — the source itself carries `// TODO should return -1` on that line.
In range, the path walk only builds throwaway inodes (the
`current_dir.lock().add(...)` call is commented out in the source), so
nothing in the kernel state changes and 0 is returned. -/
def sys_mkdirat (s : FsState) (fd : Nat) (path : String) (mode : Nat) : FsState × Int :=
  if s.fdTable.length ≤ fd then (s, 0)
  else (s, 0)

/-- Modelled from the spec: `FdManager::alloc_fd` is called by
`sys_pipe2` but defined in the missing generation of the task module;
per the spec's descriptor invariant, a fully-closed slot "is eligible
for reuse", so allocation reuses the first fully-closed slot and
otherwise appends a slot (over a fresh default open file, immediately
overwritten by `sys_pipe2`), setting the requested flags. -/
def allocFd (s : FsState) (r w : Bool) : FsState × Nat :=
  match firstIdx (fun e => !e.readable && !e.writable) s.fdTable with
  | some i =>
    ({ s with fdTable := s.fdTable.set i ⟨(s.fdTable.getD i default).open_file, r, w⟩ }, i)
  | none =>
    let (s', nO) := openFileNew s
    ({ s' with fdTable := s'.fdTable ++ [⟨nO, r, w⟩] }, s.fdTable.length)

/-- Modelled from the spec: `OpenFile::new_pipe_read` /
`new_pipe_write` (missing `fs/file.rs`) wrap the shared
`Arc<Mutex<Vec<u8>>>` buffer in a pipe inode; the read-end and
write-end open files each get their own pipe inode over the same
buffer.  Returns the state with the inode and open file appended and
the open file's identity. -/
def newPipeOpenFile (s : FsState) (bufId : Nat) : FsState × Nat :=
  let nI := s.inodes.length
  let nO := s.openFiles.length
  ({ s with
      inodes := s.inodes ++ [⟨"pipe", "/", .pipe bufId, none⟩]
      openFiles := s.openFiles ++ [⟨0, 0, nI⟩] }, nO)

/-- `sys_pipe2` (`fs.rs` lines 738-771): allocate a readable slot and
a writable slot, create one fresh shared byte buffer, point both slots
at fresh pipe open files over that buffer, register the buffer in the
global buffer list, store `(read_fd, write_fd)` through the user
pointer (modelled by returning them) and return 0. -/
def sys_pipe2 (s : FsState) : FsState × Nat × Nat × Int :=
  let (s1, read_fd) := allocFd s true false
  let (s2, write_fd) := allocFd s1 false true
  let bufId := s2.buffers.length
  let s3 := { s2 with buffers := s2.buffers ++ [[]] }
  let (s4, oR) := newPipeOpenFile s3 bufId
  let (s5, oW) := newPipeOpenFile s4 bufId
  let s6 := { s5 with
    fdTable :=
      (s5.fdTable.set read_fd
        { s5.fdTable.getD read_fd default with open_file := oR }).set write_fd
        { (s5.fdTable.set read_fd
            { s5.fdTable.getD read_fd default with open_file := oR }).getD write_fd default with
          open_file := oW } }
  let s7 := { s6 with buffers := s6.buffers }
  (s7, read_fd, write_fd, 0)

/-- What one `sys_read` call produces: the syscall's return value, the
byte sequence its loop stores into the user buffer (placement in user
memory is outside the model), and how many times it yielded. -/
structure ReadResult where
  ret : Int
  bytesOut : List Nat
  yields : Nat
deriving DecidableEq

/-- The pipe loop of `sys_read` (`fs.rs` lines 327-344): for each
`i in 0..len` the buffer is re-read and indexed at `i` (the open
file's `offset` is loaded but unused); a present byte is stored, and
an absent byte triggers one `sys_yield()` after which the literal 0 is
stored — the loop moves on without re-polling. -/
def pipeReadLoop (data : List Nat) (len : Nat) : List Nat × Nat :=
  ((List.range len).map (fun i => (data.get? i).getD 0),
   ((List.range len).filter (fun i => (data.get? i).isNone)).length)

/-- `sys_read` (`fs.rs` lines 278-378), for a single cooperative task
(no concurrent writer mutates the buffer between loop iterations).
fd 0 reads one byte from the console (outside the model; returns 0);
an fd at or beyond the table length returns 0; a pipe fd runs
`pipeReadLoop` and returns `len`; a regular fd copies bytes from
`offset` while they exist and returns the count. -/
def sys_read (s : FsState) (fd : Nat) (len : Nat) : ReadResult :=
  if fd = 0 then { ret := 0, bytesOut := [], yields := 0 }
  else if s.fdTable.length ≤ fd then { ret := 0, bytesOut := [], yields := 0 }
  else
    let d := s.fdTable.getD fd default
    if fdIsPipe s d then
      let data := inodeData s (fdInode s d)
      { ret := (len : Int)
        bytesOut := (pipeReadLoop data len).1
        yields := (pipeReadLoop data len).2 }
    else
      let data := inodeData s (fdInode s d)
      let offset := (s.openFiles.getD d.open_file default).offset
      let avail := data.length - offset
      let n := min len avail
      { ret := (n : Int)
        bytesOut := (data.drop offset).take n
        yields := 0 }

/-- `write_to_pipe` target buffer update: append the bytes to the
shared buffer the pipe inode references.  Modelled from the spec:
"Write to a pipe: appends bytes to the shared buffer"
(`PipeINode::write_to_pipe` is in the missing `fs/file.rs`). -/
def pipeAppend (s : FsState) (bufId : Nat) (bytes : List Nat) : FsState :=
  { s with buffers := s.buffers.set bufId (s.buffers.getD bufId [] ++ bytes) }

/-- `sys_write` (`fs.rs` lines 186-262).  fd 1 prints to the console
and returns `len`.  Otherwise: out of range → −1; not writable → −1;
a non-readable pipe fd appends the bytes to the shared buffer and
returns `len`; every other case reaches the loop that pushes each byte
onto the *temporary* returned by `file_data()` (the inode's byte
vector is returned by value), so the kernel state is unchanged and the
byte count is returned. -/
def sys_write (s : FsState) (fd : Nat) (bytes : List Nat) : FsState × Int :=
  if fd = 1 then (s, (bytes.length : Int))
  else if s.fdTable.length ≤ fd then (s, -1)
  else
    let d := s.fdTable.getD fd default
    if !d.writable then (s, -1)
    else if !d.readable && fdIsPipe s d then
      match (s.inodes.getD (fdInode s d) ⟨"", "", .terminal, none⟩).kind with
      | .pipe b => (pipeAppend s b bytes, (bytes.length : Int))
      | _ => (s, (bytes.length : Int))
    else (s, (bytes.length : Int))

/-! ## Lemmas about the `BTreeMap` model -/

theorem mem_btKeys_iff {p : Nat} {m : PidMap} :
    p ∈ btKeys m ↔ ∃ v : ChildProc, (p, v) ∈ m := by
  induction m with
  | nil => simp [btKeys]
  | cons e t ih =>
    simp only [btKeys, List.mem_cons, ih]
    constructor
    · rintro (h | ⟨v, hv⟩)
      · exact ⟨e.2, Or.inl (by rw [h])⟩
      · exact ⟨v, Or.inr hv⟩
    · rintro ⟨v, h | h⟩
      · exact Or.inl (by rw [← h])
      · exact Or.inr ⟨v, h⟩

theorem mem_keys_btInsert {p k : Nat} {v : ChildProc} {m : PidMap}
    (h : p ∈ btKeys (btInsert k v m)) : p = k ∨ p ∈ btKeys m := by
  induction m with
  | nil =>
    simp only [btInsert, btKeys, List.mem_cons] at h
    exact Or.inl (by simpa using h)
  | cons e t ih =>
    unfold btInsert at h
    split at h
    · simp only [btKeys, List.mem_cons] at h
      rcases h with h | h | h
      · exact Or.inl h
      · exact Or.inr (by simp [btKeys, h])
      · exact Or.inr (by simp [btKeys, h])
    · split at h
      · simp only [btKeys, List.mem_cons] at h
        rcases h with h | h
        · exact Or.inl h
        · exact Or.inr (by simp [btKeys, h])
      · simp only [btKeys, List.mem_cons] at h
        rcases h with h | h
        · exact Or.inr (by simp [btKeys, h])
        · rcases ih h with h' | h'
          · exact Or.inl h'
          · exact Or.inr (by simp [btKeys, h'])

theorem mem_keys_btRemove {p k : Nat} {m : PidMap}
    (h : p ∈ btKeys (btRemove k m)) : p ∈ btKeys m ∧ p ≠ k := by
  rcases mem_btKeys_iff.mp h with ⟨v, hv⟩
  rw [btRemove, List.mem_filter] at hv
  refine ⟨mem_btKeys_iff.mpr ⟨v, hv.1⟩, ?_⟩
  have := hv.2
  simpa using this

theorem btLookup_mem {k : Nat} {v : ChildProc} {m : PidMap}
    (h : btLookup k m = some v) : k ∈ btKeys m := by
  induction m with
  | nil => simp [btLookup] at h
  | cons e t ih =>
    unfold btLookup at h
    split at h
    · rename_i hk
      simp [btKeys, ← hk]
    · simp [btKeys, ih h]

theorem btLookup_isSome_mem {k : Nat} {m : PidMap}
    (h : (btLookup k m).isSome = true) : k ∈ btKeys m := by
  obtain ⟨v, hv⟩ := Option.isSome_iff_exists.mp h
  exact btLookup_mem hv

theorem btLookup_btInsert_self (k : Nat) (v : ChildProc) (m : PidMap) :
    btLookup k (btInsert k v m) = some v := by
  induction m with
  | nil => simp [btInsert, btLookup]
  | cons e t ih =>
    unfold btInsert
    split
    · simp [btLookup]
    · split
      · simp [btLookup]
      · rename_i h1 h2
        have : e.1 ≠ k := fun h => h2 h.symm
        simp [btLookup, this, ih]

theorem mem_keys_nonempty {k : Nat} {m : PidMap} (h : k ∈ btKeys m) : m ≠ [] := by
  intro he
  subst he
  simp [btKeys] at h

theorem btFirst?_sorted_min {m : PidMap} {k : Nat} {v : ChildProc}
    (hs : btSorted m) (h : btFirst? m = some (k, v)) :
    ∀ j ∈ btKeys m, k ≤ j := by
  intro j hj
  cases m with
  | nil => simp [btFirst?] at h
  | cons e t =>
    simp only [btFirst?, List.head?] at h
    cases h
    unfold btSorted at hs
    rcases List.pairwise_cons.mp hs with ⟨hhead, _⟩
    simp only [btKeys, List.mem_cons] at hj
    rcases hj with h' | h'
    · omega
    · rcases mem_btKeys_iff.mp h' with ⟨v', hv'⟩
      have := hhead (j, v') hv'
      omega

/-! ## Claim C1: alive/zombie disjointness over reachable states -/

theorem exit_parent_eq (p : Nat) (ch : Children) (code : Int) :
    (sys_exit p (some ch) code).parent =
      some (ch.turn_into_zombie p ⟨.ZOMBIE, code⟩) := rfl

theorem cloneChild_alive (t k : Nat) (ptf : TrapFrame) (al : PidMap) (n f st tl : Nat) :
    (cloneChild t k ptf al n f st tl).alive = btInsert n cloneChildRecord al := rfl

theorem cloneChild_nextPid (t k : Nat) (ptf : TrapFrame) (al : PidMap) (n f st tl : Nat) :
    (cloneChild t k ptf al n f st tl).nextPid = n + 1 := rfl

theorem cloneChild_ret (t k : Nat) (ptf : TrapFrame) (al : PidMap) (n f st tl : Nat) :
    (cloneChild t k ptf al n f st tl).ret = (n : Int) := rfl

theorem sys_clone_some_shape {t k : Nat} {ptf : TrapFrame} {al : PidMap}
    {n f st tl : Nat} {r : CloneResult}
    (h : sys_clone t k ptf al n f st tl = some r) :
    r.alive = btInsert n cloneChildRecord al ∧ r.nextPid = n + 1 := by
  unfold sys_clone at h
  split at h
  · obtain rfl := Option.some.inj h
    exact ⟨rfl, rfl⟩
  · exact Option.noConfusion h

theorem waitpid_step_children {ch : Children} {pid : Int} {sn : Bool} {opts : Nat}
    {v : Int} {ch' : Children} {w : Option Int}
    (h : sys_waitpid_step ch pid sn opts = .ret v ch' w) :
    ch' = ch ∨ ∃ k, ch' = ⟨ch.alive, btRemove k ch.zombie⟩ := by
  unfold sys_waitpid_step at h
  by_cases h0 : ch.alive.length + ch.zombie.length = 0
  · rw [if_pos h0] at h
    cases h; exact Or.inl rfl
  · rw [if_neg h0] at h
    by_cases h1 : pid = -1
    · rw [if_pos h1] at h
      rcases hm : btFirst? ch.zombie with _ | ⟨zpid, zproc⟩ <;> rw [hm] at h
      · by_cases h2 : 0 < opts
        · rw [if_pos h2] at h
          cases h; exact Or.inl rfl
        · rw [if_neg h2] at h
          exact absurd h (by simp)
      · cases h; exact Or.inr ⟨zpid, rfl⟩
    · rw [if_neg h1] at h
      rcases hm : btLookup ((pid % 2 ^ 64).toNat) ch.zombie with _ | z <;> rw [hm] at h
      · cases h; exact Or.inl rfl
      · cases h; exact Or.inr ⟨(pid % 2 ^ 64).toNat, rfl⟩

theorem tracked_mk {a z : PidMap} {p : Nat} :
    tracked ⟨a, z⟩ p ↔ p ∈ btKeys a ∨ p ∈ btKeys z := Iff.rfl

theorem keysDisjoint_insert_alive {ch : Children} {n : Nat} {v : ChildProc}
    (hd : keysDisjoint ch) (hb : boundBy ch n) :
    keysDisjoint ⟨btInsert n v ch.alive, ch.zombie⟩ := by
  intro q ⟨hqa, hqz⟩
  rcases mem_keys_btInsert hqa with h' | h'
  · subst h'
    exact absurd (hb q (Or.inr hqz)) (lt_irrefl q)
  · exact hd q ⟨h', hqz⟩

theorem boundBy_insert_alive {ch : Children} {n : Nat} {v : ChildProc}
    (hb : boundBy ch n) :
    boundBy ⟨btInsert n v ch.alive, ch.zombie⟩ (n + 1) := by
  intro q hq
  rcases tracked_mk.mp hq with hq | hq
  · rcases mem_keys_btInsert hq with h' | h'
    · omega
    · have := hb q (Or.inl h'); omega
  · have := hb q (Or.inr hq); omega

theorem keysDisjoint_turn {ch : Children} {p : Nat} {rec : ChildProc}
    (hd : keysDisjoint ch) :
    keysDisjoint (ch.turn_into_zombie p rec) := by
  unfold Children.turn_into_zombie
  split
  · intro q ⟨hqa, hqz⟩
    obtain ⟨hqa', hqp⟩ := mem_keys_btRemove hqa
    rcases mem_keys_btInsert hqz with h' | h'
    · exact hqp h'
    · exact hd q ⟨hqa', h'⟩
  · exact hd

theorem boundBy_turn {ch : Children} {p : Nat} {rec : ChildProc} {n : Nat}
    (hb : boundBy ch n) :
    boundBy (ch.turn_into_zombie p rec) n := by
  unfold Children.turn_into_zombie
  split
  · rename_i hp
    intro q hq
    rcases tracked_mk.mp hq with hq | hq
    · exact hb q (Or.inl (mem_keys_btRemove hq).1)
    · rcases mem_keys_btInsert hq with h' | h'
      · subst h'
        exact hb q (Or.inl (btLookup_isSome_mem hp))
      · exact hb q (Or.inr h')
  · exact hb

theorem keysDisjoint_removeZ {ch : Children} {k : Nat}
    (hd : keysDisjoint ch) :
    keysDisjoint ⟨ch.alive, btRemove k ch.zombie⟩ := by
  intro q ⟨hqa, hqz⟩
  exact hd q ⟨hqa, (mem_keys_btRemove hqz).1⟩

theorem boundBy_removeZ {ch : Children} {k n : Nat}
    (hb : boundBy ch n) :
    boundBy ⟨ch.alive, btRemove k ch.zombie⟩ n := by
  intro q hq
  rcases tracked_mk.mp hq with hq | hq
  · exact hb q (Or.inl hq)
  · exact hb q (Or.inr (mem_keys_btRemove hq).1)

theorem PInv_step {s t : PTree} (h : PStep s t) (hi : PInv s) : PInv t := by
  cases h with
  | clone ch n trampoline kstackSize flags stack tls ptf r hr =>
    obtain ⟨hal, hnp⟩ := sys_clone_some_shape hr
    obtain ⟨hd, hb⟩ := hi
    have hd' : keysDisjoint ch := hd
    have hb' : boundBy ch n := hb
    refine ⟨?_, ?_⟩
    · show keysDisjoint ⟨r.alive, ch.zombie⟩
      rw [hal]
      exact keysDisjoint_insert_alive hd' hb'
    · show boundBy ⟨r.alive, ch.zombie⟩ r.nextPid
      rw [hal, hnp]
      exact boundBy_insert_alive hb'
  | exit ch n p code ch' hx =>
    obtain ⟨hd, hb⟩ := hi
    have hd' : keysDisjoint ch := hd
    have hb' : boundBy ch n := hb
    rw [exit_parent_eq] at hx
    cases hx
    exact ⟨keysDisjoint_turn hd', boundBy_turn hb'⟩
  | wait ch n pid sn opts v ch' w hx =>
    obtain ⟨hd, hb⟩ := hi
    have hd' : keysDisjoint ch := hd
    have hb' : boundBy ch n := hb
    rcases waitpid_step_children hx with h' | ⟨k, h'⟩
    · subst h'; exact ⟨hd', hb'⟩
    · subst h'
      exact ⟨keysDisjoint_removeZ hd', boundBy_removeZ hb'⟩

theorem PInv_reach {s t : PTree} (h : PReach s t) (hi : PInv s) : PInv t := by
  induction h with
  | refl => exact hi
  | tail _ hstep ih => exact PInv_step hstep ih

theorem untracked_stable_step {s t : PTree} {p : Nat} (h : PStep s t)
    (hp : p < s.nextPid ∧ ¬tracked s.children p) :
    p < t.nextPid ∧ ¬tracked t.children p := by
  cases h with
  | clone ch n trampoline kstackSize flags stack tls ptf r hr =>
    obtain ⟨hal, hnp⟩ := sys_clone_some_shape hr
    have hlt : p < n := hp.1
    have hnt : ¬tracked ch p := hp.2
    refine ⟨?_, ?_⟩
    · show p < r.nextPid
      omega
    · show ¬tracked ⟨r.alive, ch.zombie⟩ p
      rw [hal]
      intro ht
      rcases tracked_mk.mp ht with ht | ht
      · rcases mem_keys_btInsert ht with h' | h'
        · omega
        · exact hnt (Or.inl h')
      · exact hnt (Or.inr ht)
  | exit ch n q code ch' hx =>
    have hlt : p < n := hp.1
    have hnt : ¬tracked ch p := hp.2
    rw [exit_parent_eq] at hx
    cases hx
    refine ⟨hlt, ?_⟩
    intro ht
    have ht' : tracked (ch.turn_into_zombie q ⟨.ZOMBIE, code⟩) p := ht
    unfold Children.turn_into_zombie at ht'
    split at ht'
    · rename_i hq
      rcases tracked_mk.mp ht' with ht'' | ht''
      · exact hnt (Or.inl (mem_keys_btRemove ht'').1)
      · rcases mem_keys_btInsert ht'' with h' | h'
        · subst h'
          exact hnt (Or.inl (btLookup_isSome_mem hq))
        · exact hnt (Or.inr h')
    · exact hnt ht'
  | wait ch n pid sn opts v ch' w hx =>
    have hlt : p < n := hp.1
    have hnt : ¬tracked ch p := hp.2
    refine ⟨hlt, ?_⟩
    intro ht
    rcases waitpid_step_children hx with h' | ⟨k, h'⟩
    · subst h'; exact hnt ht
    · subst h'
      rcases tracked_mk.mp ht with ht' | ht'
      · exact hnt (Or.inl ht')
      · exact hnt (Or.inr (mem_keys_btRemove ht').1)

theorem untracked_stable {s t : PTree} {p : Nat} (h : PReach s t)
    (hp : p < s.nextPid ∧ ¬tracked s.children p) :
    p < t.nextPid ∧ ¬tracked t.children p := by
  induction h with
  | refl => exact hp
  | tail _ hstep ih => exact untracked_stable_step hstep ih

/-- C1: in every process-tree state reachable from a parent with no
children yet — through `sys_clone` inserting the fresh pid into
`alive`, a child's `sys_exit` moving its pid from `alive` to `zombie`,
and reaping polls of `sys_waitpid` removing pids from `zombie` — every
pid is in at most one of the parent's `alive` and `zombie` maps, and a
pid tracked by neither map (in particular one just reaped, pids being
allocated monotonically below the counter) stays in neither map
forever after. -/
theorem clm_alive_zombie_disjoint (n0 : Nat) (s : PTree)
    (h : PReach ⟨⟨[], []⟩, n0⟩ s) :
    keysDisjoint s.children ∧
      ∀ p : Nat, p < s.nextPid → ¬tracked s.children p →
        ∀ t : PTree, PReach s t → ¬tracked t.children p := by
  have hinv : PInv s := by
    apply PInv_reach h
    constructor
    · intro p ⟨hp, _⟩
      simp [btKeys] at hp
    · intro p hp
      rcases hp with hp | hp <;> simp [btKeys] at hp
  refine ⟨hinv.1, ?_⟩
  intro p hlt hnt t hreach
  exact (untracked_stable hreach ⟨hlt, hnt⟩).2

/-- Witness for C1 at a concrete reachable state: after a `clone`
(pid 1 into `alive`), that child's `exit` (moving 1 into `zombie`) and
a reaping `waitpid(-1)` poll, pid 1 is tracked by neither map, and the
maps are disjoint there. -/
theorem clm_alive_zombie_disjoint_witness :
    keysDisjoint (Children.mk [] []) ∧ ¬tracked (Children.mk [] []) 1 := by
  have h0 : PReach ⟨⟨[], []⟩, 1⟩ ⟨⟨[], []⟩, 1⟩ := Relation.ReflTransGen.refl
  have h := clm_alive_zombie_disjoint 1 ⟨⟨[], []⟩, 1⟩ h0
  refine ⟨h.1, ?_⟩
  intro ht
  rcases ht with ht | ht <;> simp [btKeys] at ht

/-! ## Claim C2: `waitpid(-1, …)` -/

/-- C2: one poll of `sys_waitpid` with `pid = -1`: with no children at
all it returns −1 (or 0 under non-blocking `options`); with children
but an empty zombie map it returns 0 under non-blocking `options` and
yields otherwise; with a non-empty zombie map it removes and returns
the first-by-key (minimal-pid) zombie; and −1 is returned only in the
no-children blocking case, so −1 and 0 are never conflated. -/
theorem clm_waitpid_any_child (ch : Children) (statusNull : Bool) (options : Nat)
    (hs : btSorted ch.zombie) :
    (ch.alive = [] → ch.zombie = [] →
      sys_waitpid_step ch (-1) statusNull options =
        .ret (if 0 < options then 0 else -1) ch none) ∧
    (ch.alive ≠ [] → ch.zombie = [] →
      (0 < options → sys_waitpid_step ch (-1) statusNull options = .ret 0 ch none) ∧
      (options = 0 → sys_waitpid_step ch (-1) statusNull options = .yield)) ∧
    (∀ zpid zproc, btFirst? ch.zombie = some (zpid, zproc) →
      sys_waitpid_step ch (-1) statusNull options =
        .ret (zpid : Int) ⟨ch.alive, btRemove zpid ch.zombie⟩
          (if statusNull then none else some (statusOf zproc.exit_code)) ∧
      ∀ j ∈ btKeys ch.zombie, zpid ≤ j) ∧
    (∀ v ch' w, sys_waitpid_step ch (-1) statusNull options = .ret v ch' w → v = -1 →
      ch.alive = [] ∧ ch.zombie = [] ∧ options = 0) := by
  refine ⟨?_, ?_, ?_, ?_⟩
  · intro ha hz
    unfold sys_waitpid_step
    rw [if_pos (by rw [ha, hz]; rfl)]
  · intro ha hz
    have hne : ¬(ch.alive.length + ch.zombie.length = 0) := by
      intro h0
      exact ha (List.length_eq_zero.mp (by omega))
    have hf : btFirst? ch.zombie = none := by rw [hz]; rfl
    constructor <;> intro hopt
    · unfold sys_waitpid_step
      rw [if_neg hne, if_pos rfl, hf, if_pos hopt]
    · unfold sys_waitpid_step
      rw [if_neg hne, if_pos rfl, hf, if_neg (by omega)]
  · intro zpid zproc hf
    have hzne : ch.zombie ≠ [] := by
      intro h0
      rw [h0] at hf
      exact Option.noConfusion hf
    have hne : ¬(ch.alive.length + ch.zombie.length = 0) := by
      intro h0
      exact hzne (List.length_eq_zero.mp (by omega))
    refine ⟨?_, btFirst?_sorted_min hs hf⟩
    unfold sys_waitpid_step
    rw [if_neg hne, if_pos rfl, hf]
  · intro v ch' w hstep hv
    unfold sys_waitpid_step at hstep
    by_cases h0 : ch.alive.length + ch.zombie.length = 0
    · rw [if_pos h0] at hstep
      cases hstep
      refine ⟨List.length_eq_zero.mp (by omega), List.length_eq_zero.mp (by omega), ?_⟩
      by_cases hopt : 0 < options
      · rw [if_pos hopt] at hv
        exact absurd hv (by norm_num)
      · omega
    · rw [if_neg h0, if_pos rfl] at hstep
      rcases hf : btFirst? ch.zombie with _ | ⟨zpid, zproc⟩ <;> rw [hf] at hstep
      · by_cases hopt : 0 < options
        · rw [if_pos hopt] at hstep
          cases hstep
          exact absurd hv (by norm_num)
        · rw [if_neg hopt] at hstep
          exact absurd hstep (by simp)
      · cases hstep
        have : (0 : Int) ≤ (zpid : Int) := Int.natCast_nonneg zpid
        omega

/-- Witness for C2: a concrete poll with children `alive = {3}`,
`zombie = {5, 6}` removes and returns the minimal zombie pid 5 and
stores its shifted exit code. -/
theorem clm_waitpid_any_child_witness :
    sys_waitpid_step ⟨[(3, ⟨.READY, 0⟩)], [(5, ⟨.ZOMBIE, 7⟩), (6, ⟨.ZOMBIE, 8⟩)]⟩
        (-1) false 0 =
      .ret 5 ⟨[(3, ⟨.READY, 0⟩)], [(6, ⟨.ZOMBIE, 8⟩)]⟩ (some (statusOf 7)) := by
  have h := (clm_waitpid_any_child
      ⟨[(3, ⟨.READY, 0⟩)], [(5, ⟨.ZOMBIE, 7⟩), (6, ⟨.ZOMBIE, 8⟩)]⟩ false 0
      (by decide)).2.2.1 5 ⟨.ZOMBIE, 7⟩ rfl
  exact h.1

/-! ## Claim C3: `waitpid` with a specific pid -/

/-- C3 counterexample: with zombie child 5 (exit code 7),
`waitpid(5, NULL, 0)` removes the zombie but returns 0, not the pid 5
the claim promises. -/
theorem clm_waitpid_specific_counterexample :
    sys_waitpid_step ⟨[], [(5, ⟨.ZOMBIE, 7⟩)]⟩ 5 true 0 =
      .ret 0 ⟨[], []⟩ none ∧ (0 : Int) ≠ 5 := by
  constructor
  · rfl
  · decide

/-- C3 amended: `waitpid` with a specific non-negative pid, when the
caller has at least one child: a pid present in `zombie` is removed,
its `(exit_code << 8)` is stored through a non-null status pointer,
and the call returns 0 (not the pid); a pid absent from `zombie` (even
one still alive) yields an immediate −1 without blocking. -/
theorem clm_waitpid_specific_amended (ch : Children) (pid : Int) (statusNull : Bool)
    (options : Nat) (hp0 : 0 ≤ pid) (hp64 : pid < 2 ^ 64) :
    (ch.alive.length + ch.zombie.length = 0 →
      sys_waitpid_step ch pid statusNull options =
        .ret (if 0 < options then 0 else -1) ch none) ∧
    (ch.alive.length + ch.zombie.length ≠ 0 →
      ∀ zproc, btLookup pid.toNat ch.zombie = some zproc →
      sys_waitpid_step ch pid statusNull options =
        .ret 0 ⟨ch.alive, btRemove pid.toNat ch.zombie⟩
          (if statusNull then none else some (statusOf zproc.exit_code))) ∧
    (ch.alive.length + ch.zombie.length ≠ 0 →
      btLookup pid.toNat ch.zombie = none →
      sys_waitpid_step ch pid statusNull options = .ret (-1) ch none) := by
  have hmod : (pid % 2 ^ 64).toNat = pid.toNat := by
    rw [Int.emod_eq_of_lt hp0 hp64]
  have hpid : ¬(pid = -1) := by omega
  refine ⟨?_, ?_, ?_⟩
  · intro h0
    unfold sys_waitpid_step
    rw [if_pos h0]
  · intro hne zproc hz
    unfold sys_waitpid_step
    rw [if_neg hne, if_neg hpid, hmod, hz]
  · intro hne hz
    unfold sys_waitpid_step
    rw [if_neg hne, if_neg hpid, hmod, hz]

/-- Witness for C3 (amended): the concrete call of the counterexample,
derived from the amended theorem: removal, status write, return 0. -/
theorem clm_waitpid_specific_amended_witness :
    sys_waitpid_step ⟨[], [(5, ⟨.ZOMBIE, 7⟩)]⟩ 5 false 0 =
      .ret 0 ⟨[], []⟩ (some (statusOf 7)) := by
  have h := (clm_waitpid_specific_amended ⟨[], [(5, ⟨.ZOMBIE, 7⟩)]⟩ 5 false 0
      (by decide) (by decide)).2.1 (by decide) ⟨.ZOMBIE, 7⟩ rfl
  exact h

/-! ## Claim C4: `exit` and status recovery -/

theorem isizeWrap_eq_self {x : Int} (h1 : -(2 ^ 63) ≤ x) (h2 : x < 2 ^ 63) :
    isizeWrap x = x := by
  unfold isizeWrap
  have : (x + 2 ^ 63) % 2 ^ 64 = x + 2 ^ 63 :=
    Int.emod_eq_of_lt (by omega) (by omega)
  omega

/-- C4: `exit(code)` leaves the caller in state `ZOMBIE` with the exit
code stored and, with no parent, shuts the system down; with a parent
that tracks the caller in `alive`, the caller's pid moves into the
parent's `zombie` map (leaving `alive`), and a subsequent
`waitpid(pid, …)` poll recovers the status through a non-null status
pointer as `(code << 8)` for every `i32` exit code. -/
theorem clm_exit_zombie_status (selfPid : Nat) (code : Int) (parent : Option Children) :
    (sys_exit selfPid parent code).self = ⟨.ZOMBIE, code⟩ ∧
    (parent = none → (sys_exit selfPid parent code).shutdown = true) ∧
    (∀ ch : Children, parent = some ch → (btLookup selfPid ch.alive).isSome →
      ∃ ch' : Children, (sys_exit selfPid parent code).parent = some ch' ∧
        btLookup selfPid ch'.zombie = some ⟨.ZOMBIE, code⟩ ∧
        selfPid ∉ btKeys ch'.alive ∧
        (selfPid < 2 ^ 64 → -(2 ^ 31) ≤ code → code < 2 ^ 31 →
          ∀ options : Nat,
            sys_waitpid_step ch' (selfPid : Int) false options =
              .ret 0 ⟨ch'.alive, btRemove selfPid ch'.zombie⟩
                (some (code * 2 ^ 8)))) := by
  refine ⟨?_, ?_, ?_⟩
  · cases parent <;> rfl
  · intro h
    subst h
    rfl
  · intro ch hch hsome
    subst hch
    rw [exit_parent_eq]
    unfold Children.turn_into_zombie
    rw [if_pos hsome]
    refine ⟨_, rfl, btLookup_btInsert_self _ _ _, ?_, ?_⟩
    · intro hmem
      exact (mem_keys_btRemove hmem).2 rfl
    · intro h64 hlo hhi options
    -- the waitpid poll on the updated children
      have hmem : selfPid ∈ btKeys (btInsert selfPid (⟨.ZOMBIE, code⟩ : ChildProc) ch.zombie) :=
        btLookup_mem (btLookup_btInsert_self _ _ _)
      have hzlen : 0 < (btInsert selfPid (⟨.ZOMBIE, code⟩ : ChildProc) ch.zombie).length :=
        List.length_pos.mpr (mem_keys_nonempty hmem)
      have hne : ¬((btRemove selfPid ch.alive).length +
          (btInsert selfPid (⟨.ZOMBIE, code⟩ : ChildProc) ch.zombie).length = 0) := by
        omega
      have hpid : ¬((selfPid : Int) = -1) := by omega
      have hcast : ((selfPid : Int)) < 2 ^ 64 := by exact_mod_cast h64
      have hmod : (((selfPid : Int)) % 2 ^ 64).toNat = selfPid := by
        rw [Int.emod_eq_of_lt (Int.natCast_nonneg selfPid) hcast]
        exact Int.toNat_natCast selfPid
      have hstatus : statusOf code = code * 2 ^ 8 := by
        unfold statusOf
        exact isizeWrap_eq_self (by omega) (by omega)
      unfold sys_waitpid_step
      rw [if_neg hne, if_neg hpid, hmod, btLookup_btInsert_self]
      dsimp only
      rw [hstatus]
      rfl

/-- Witness for C4: exit code 7 of child pid 1; the parent's
`waitpid(1, &status, 0)` poll then removes the zombie and stores
`7 << 8`. -/
theorem clm_exit_zombie_status_witness :
    sys_waitpid_step ⟨[], [(1, ⟨.ZOMBIE, 7⟩)]⟩ 1 false 0 =
      .ret 0 ⟨[], []⟩ (some (7 * 2 ^ 8)) := by
  obtain ⟨-, -, h3⟩ :=
    clm_exit_zombie_status 1 7 (some ⟨[(1, ⟨.READY, 0⟩)], []⟩)
  obtain ⟨ch', hch', -, -, hw⟩ := h3 _ rfl (by decide)
  have : ch' = ⟨[], [(1, ⟨.ZOMBIE, 7⟩)]⟩ := by
    have h0 : (sys_exit 1 (some ⟨[(1, ⟨.READY, 0⟩)], []⟩) 7).parent =
        some (⟨[], [(1, ⟨.ZOMBIE, 7⟩)]⟩ : Children) := by decide
    rw [h0] at hch'
    exact (Option.some.injEq _ _).mp hch'.symm
  subst this
  exact hw (by decide) (by decide) (by decide) 0

/-! ## Claim C5: `clone` -/

theorem cloneChild_childTf_x (t k : Nat) (ptf : TrapFrame) (al : PidMap)
    (n f st tl : Nat) (i : Fin 32) :
    (cloneChild t k ptf al n f st tl).childTf.x i =
      if cloneSETTLS f = true ∧ i = 4 then tl
      else if st ≠ 0 ∧ i = 2 then st
      else if i = 10 then 0
      else ptf.x i := by
  unfold cloneChild
  dsimp only
  by_cases h1 : cloneSETTLS f = true <;> by_cases h2 : st ≠ 0 <;>
    simp only [h1, h2, if_true, if_false, Bool.false_eq_true, if_neg, ite_true, ite_false,
      not_true, not_false_iff] <;>
    split_ifs <;> simp_all

theorem cloneChild_kernel_sp (t k : Nat) (ptf : TrapFrame) (al : PidMap)
    (n f st tl : Nat) :
    (cloneChild t k ptf al n f st tl).childTf.kernel_sp = t - k * n := by
  unfold cloneChild
  dsimp only
  by_cases h1 : cloneSETTLS f = true <;> by_cases h2 : st ≠ 0 <;>
    simp [h1, h2]

/-- C5 counterexample: with the all-clear flags word 0 (which survives
the `CloneFlags` unwrap), no new stack and `CLONE_SETTLS` clear, the
claim says the child's trap frame agrees with the parent's everywhere
except the zeroed return-value register — in particular on `kernel_sp`
— yet the clone (parent frame with `kernel_sp = 0`, `TRAMPOLINE =
2^30`, `KERNEL_STACK_SIZE = 2^12`, fresh pid 1) succeeds and repoints
the child's `kernel_sp` at `2^30 − 2^12 ≠ 0`. -/
theorem clm_clone_trapframe_counterexample :
    sys_clone (2 ^ 30) (2 ^ 12) ⟨fun _ => 0, 0⟩ [] 1 0 0 0 =
      some (cloneChild (2 ^ 30) (2 ^ 12) ⟨fun _ => 0, 0⟩ [] 1 0 0 0) ∧
    (cloneChild (2 ^ 30) (2 ^ 12) ⟨fun _ => 0, 0⟩ [] 1 0 0 0).childTf.kernel_sp =
        2 ^ 30 - 2 ^ 12 ∧
    (TrapFrame.mk (fun _ => 0) 0).kernel_sp = 0 ∧
    (2 ^ 30 - 2 ^ 12 : Nat) ≠ 0 := by
  refine ⟨?_, ?_, rfl, by norm_num⟩
  · unfold sys_clone
    rw [if_pos (by decide)]
  · rw [cloneChild_kernel_sp]
    norm_num

/-- C5 amended: a flags word that does not survive
`CloneFlags::from_bits` (bit 6 or a bit at or above 25 set after
masking the low six bits) panics the kernel and creates no child.  For
every surviving flags word, the child's trap frame is a copy of the
parent's except that the return-value register `x[10]` is zeroed, the
`kernel_sp` field is unconditionally repointed at the child's fresh
kernel stack `TRAMPOLINE − KERNEL_STACK_SIZE · new_pid`, the user
stack pointer `x[2]` is overwritten when a new stack is requested and
the TLS register `x[4]` when `CLONE_SETTLS` is set; the new process is
registered under the fresh pid in the parent's `alive` map in state
`READY`, the call returns the child's pid to the parent, and the child
observes return value 0 (its `x[10]`). -/
theorem clm_clone_semantics (t k : Nat) (ptf : TrapFrame) (al : PidMap)
    (n f st tl : Nat) :
    (cloneFlagsValid f = false → sys_clone t k ptf al n f st tl = none) ∧
    (cloneFlagsValid f = true →
      (sys_clone t k ptf al n f st tl).isSome = true ∧
      ∀ r : CloneResult, sys_clone t k ptf al n f st tl = some r →
        (∀ i : Fin 32, i ≠ 10 → i ≠ 2 → i ≠ 4 → r.childTf.x i = ptf.x i) ∧
        r.childTf.x 10 = 0 ∧
        (st ≠ 0 → r.childTf.x 2 = st) ∧
        (st = 0 → r.childTf.x 2 = ptf.x 2) ∧
        (cloneSETTLS f = true → r.childTf.x 4 = tl) ∧
        (cloneSETTLS f = false → r.childTf.x 4 = ptf.x 4) ∧
        r.childTf.kernel_sp = t - k * n ∧
        r.childState = .READY ∧
        r.childPid = n ∧
        r.alive = btInsert n cloneChildRecord al ∧
        r.ret = (n : Int)) := by
  constructor
  · intro hf
    unfold sys_clone
    rw [if_neg (by simp [hf])]
  · intro hf
    constructor
    · unfold sys_clone
      rw [if_pos hf]
      rfl
    · intro r hr
      unfold sys_clone at hr
      rw [if_pos hf] at hr
      obtain rfl := Option.some.inj hr
      refine ⟨?_, ?_, ?_, ?_, ?_, ?_, cloneChild_kernel_sp t k ptf al n f st tl,
        rfl, rfl, rfl, rfl⟩
      · intro i h10 h2 h4
        rw [cloneChild_childTf_x]
        rw [if_neg (by tauto), if_neg (by tauto), if_neg h10]
      · rw [cloneChild_childTf_x]
        rw [if_neg (by simp), if_neg (by simp), if_pos rfl]
      · intro hst
        rw [cloneChild_childTf_x]
        rw [if_neg (by simp), if_pos ⟨hst, rfl⟩]
      · intro hst
        rw [cloneChild_childTf_x]
        rw [if_neg (by simp), if_neg (by simp [hst]), if_neg (by decide)]
      · intro htl
        rw [cloneChild_childTf_x]
        rw [if_pos ⟨htl, rfl⟩]
      · intro htl
        rw [cloneChild_childTf_x]
        rw [if_neg (by simp [htl]), if_neg (by simp), if_neg (by decide)]

/-- Witness for C5 (amended) at concrete inputs: with the valid flags
word 0 the clone succeeds, registers other than 10/2/4 are copied,
`x[10]` is zeroed and the parent gets the fresh pid 5 back; with the
invalid flags word `0x40` (bit 6 set) the kernel panics instead. -/
theorem clm_clone_semantics_witness :
    (cloneChild (2 ^ 30) (2 ^ 12) ⟨fun _ => 7, 99⟩ [] 5 0 0 0).childTf.x 10 = 0 ∧
    (cloneChild (2 ^ 30) (2 ^ 12) ⟨fun _ => 7, 99⟩ [] 5 0 0 0).childTf.x 3 = 7 ∧
    (cloneChild (2 ^ 30) (2 ^ 12) ⟨fun _ => 7, 99⟩ [] 5 0 0 0).ret = 5 ∧
    sys_clone (2 ^ 30) (2 ^ 12) ⟨fun _ => 7, 99⟩ [] 5 64 0 0 = none := by
  obtain ⟨-, hok⟩ := clm_clone_semantics (2 ^ 30) (2 ^ 12) ⟨fun _ => 7, 99⟩ [] 5 0 0 0
  obtain ⟨-, hall⟩ := hok (by decide)
  obtain ⟨h1, h2, -, -, -, -, -, -, -, -, h11⟩ :=
    hall (cloneChild (2 ^ 30) (2 ^ 12) ⟨fun _ => 7, 99⟩ [] 5 0 0 0)
      (by unfold sys_clone; rw [if_pos (by decide)])
  refine ⟨h2, h1 3 (by decide) (by decide) (by decide), h11, ?_⟩
  exact (clm_clone_semantics (2 ^ 30) (2 ^ 12) ⟨fun _ => 7, 99⟩ [] 5 64 0 0).1
    (by decide)

/-! ## Claim C6: `dup` (code bug) -/

/-- C6 (evaluating the code at the failing input): `dup3(0, 4, 0)` on
the initial table leaves slot 3 as a fully-closed placeholder; `dup(0)`
then computes `new_fd = 3` (the first fully-closed slot) and returns 3,
but `push`es the duplicate onto the end of the table instead of
installing it at slot 3 — so the descriptor at the returned index stays
closed and does not share fd 0's `OpenFile`, while the appended entry
at index 5 does. -/
theorem clm_dup_slot_mismatch :
    (sys_dup (sys_dup3 initFs 0 4).1 0).2 = 3 ∧
    ((sys_dup (sys_dup3 initFs 0 4).1 0).1.fdTable.getD 3 default).readable = false ∧
    ((sys_dup (sys_dup3 initFs 0 4).1 0).1.fdTable.getD 3 default).writable = false ∧
    ((sys_dup (sys_dup3 initFs 0 4).1 0).1.fdTable.getD 3 default).open_file ≠
      ((sys_dup (sys_dup3 initFs 0 4).1 0).1.fdTable.getD 0 default).open_file ∧
    ((sys_dup (sys_dup3 initFs 0 4).1 0).1.fdTable.getD 5 default).open_file =
      ((sys_dup (sys_dup3 initFs 0 4).1 0).1.fdTable.getD 0 default).open_file ∧
    (sys_dup initFs 9).2 = -1 := by
  decide

/-! ## Claim C7: `close` (code bug) -/

/-- C7 (evaluating the code at the failing input): `close(0)` on the
initial table — fd 0 open and readable — returns 0 but leaves the
whole state untouched (the `readable || writable` branch of
`FdManager::close` does nothing), so the open slot is never reset to
closed; an out-of-range `close(3)` does fail with −1. -/
theorem clm_close_open_fd_noop :
    (sys_close initFs 0).2 = 0 ∧
    (sys_close initFs 0).1 = initFs ∧
    ((sys_close initFs 0).1.fdTable.getD 0 default).readable = true ∧
    (sys_close initFs 3).2 = -1 := by
  decide

/-! ## Claim C8: pipes (code bug) -/

/-- C8 (evaluating the code at the failing input): after `pipe2` yields
`(r, w) = (3, 4)`, a `read(r, buf, 1)` on the still-empty pipe yields
exactly once and then stores the fabricated byte 0 and returns 1 — it
never re-polls for the real byte; the happy path (`write(w, "AB", 2)`
before the read) does return exactly the written bytes with no yield. -/
theorem clm_pipe_read_fabricates :
    (sys_pipe2 initFs).2.1 = 3 ∧
    (sys_pipe2 initFs).2.2.1 = 4 ∧
    (sys_read (sys_pipe2 initFs).1 3 1).bytesOut = [0] ∧
    (sys_read (sys_pipe2 initFs).1 3 1).yields = 1 ∧
    (sys_read (sys_pipe2 initFs).1 3 1).ret = 1 ∧
    (sys_write (sys_pipe2 initFs).1 4 [65, 66]).2 = 2 ∧
    (sys_read (sys_write (sys_pipe2 initFs).1 4 [65, 66]).1 3 2).bytesOut = [65, 66] ∧
    (sys_read (sys_write (sys_pipe2 initFs).1 4 [65, 66]).1 3 2).yields = 0 ∧
    (sys_read (sys_write (sys_pipe2 initFs).1 4 [65, 66]).1 3 2).ret = 2 := by
  decide

/-! ## Claim C10: invalid-descriptor handling (code bug) -/

/-- C10 (evaluating the code at the failing inputs): on the initial
3-entry fd table, `getdents64(3, …)` indexes the fd table with no
bounds check and panics the kernel (`none`), and `mkdirat(3, …)`
returns 0 — a value from the non-negative success space — instead of a
negative sentinel (the source line carries `// TODO should return
-1`). -/
theorem clm_invalid_fd_sentinels :
    sys_getdents64 initFs 3 100 19 = none ∧
    (sys_mkdirat initFs 3 "dir" 0).2 = 0 ∧
    (sys_mkdirat initFs 3 "dir" 0).1 = initFs := by
  decide

/-! ## Claim C9: `openat` de-duplication -/

theorem dcGet_dcInsert_self (p : String) (i : Nat) (l : List (String × Nat)) :
    dcGet p (dcInsert p i l) = some i := by
  induction l with
  | nil => simp [dcInsert, dcGet]
  | cons e t ih =>
    unfold dcInsert
    split
    · simp [dcGet]
    · rename_i h
      unfold dcGet
      rw [if_neg h]
      exact ih

theorem listGetD_append_lt {α : Type _} (l1 l2 : List α) (i : Nat) (d : α)
    (h : i < l1.length) : (l1 ++ l2).getD i d = l1.getD i d := by
  induction l1 generalizing i with
  | nil => simp at h
  | cons a t ih =>
    cases i with
    | zero => rfl
    | succ j =>
      simp only [List.cons_append, List.getD_cons_succ]
      exact ih j (by simpa using h)

theorem listGetD_append_len {α : Type _} (l1 : List α) (x d : α) :
    (l1 ++ [x]).getD l1.length d = x := by
  induction l1 with
  | nil => rfl
  | cons a t ih =>
    simp only [List.cons_append, List.length_cons, List.getD_cons_succ]
    exact ih

theorem listGetD_mem {α : Type _} (l : List α) (i : Nat) (d : α) (h : i < l.length) :
    l.getD i d ∈ l := by
  induction l generalizing i with
  | nil => simp at h
  | cons a t ih =>
    cases i with
    | zero => exact List.mem_cons_self _ _
    | succ j =>
      exact List.mem_cons_of_mem _ (ih j (by simpa using h))

theorem firstIdx_congr {α : Type _} (p q : α → Bool) (l : List α)
    (h : ∀ x ∈ l, p x = q x) : firstIdx p l = firstIdx q l := by
  induction l with
  | nil => rfl
  | cons a t ih =>
    unfold firstIdx
    rw [h a (List.mem_cons_self a t), ih (fun x hx => h x (List.mem_cons_of_mem a hx))]

theorem firstIdx_append_last {α : Type _} {p : α → Bool} {l : List α} {a : α}
    (h : ∀ x ∈ l, p x = false) (ha : p a = true) :
    firstIdx p (l ++ [a]) = some l.length := by
  induction l with
  | nil => simp [firstIdx, ha]
  | cons b t ih =>
    have hb := h b (List.mem_cons_self b t)
    rw [List.cons_append]
    unfold firstIdx
    rw [hb]
    simp only [Bool.false_eq_true, if_false]
    rw [ih (fun x hx => h x (List.mem_cons_of_mem b hx))]
    rfl

theorem fdInode_append_openFiles {s : FsState} {ofs : List OpenFileV}
    {d : FileDescriptorV} (h : d.open_file < s.openFiles.length) :
    fdInode { s with openFiles := s.openFiles ++ ofs } d = fdInode s d := by
  unfold fdInode
  dsimp only
  rw [listGetD_append_lt _ _ _ _ h]

theorem scanPred_false_of_wf {s : FsState} {nI : Nat} {d : FileDescriptorV}
    (hwf : FsWF s) (hd : d ∈ s.fdTable) (hn : s.inodes.length ≤ nI) :
    (fdInode s d == nI) = false := by
  have h1 := hwf.1 d hd
  have h2 := hwf.2 (s.openFiles.getD d.open_file default)
    (listGetD_mem s.openFiles d.open_file default h1)
  unfold fdInode
  rw [beq_eq_false_iff_ne]
  omega

theorem fdInode_def (s : FsState) (d : FileDescriptorV) :
    fdInode s d = (s.openFiles.getD d.open_file default).inode := rfl

theorem scan_append_fresh (ofs : List OpenFileV) (tbl : List FileDescriptorV) (nI : Nat)
    (hwtbl : ∀ d ∈ tbl, d.open_file < ofs.length)
    (hwofs : ∀ of ∈ ofs, of.inode < nI)
    (of1 of2 : OpenFileV) (h1 : of1.inode = nI)
    (fdN : FileDescriptorV) (hfdN : fdN.open_file = ofs.length) :
    firstIdx (fun d => ((ofs ++ [of1] ++ [of2]).getD d.open_file default).inode == nI)
      (tbl ++ [fdN]) = some tbl.length := by
  apply firstIdx_append_last
  · intro x hx
    have hlt : x.open_file < ofs.length := hwtbl x hx
    rw [listGetD_append_lt (ofs ++ [of1]) [of2] x.open_file default
      (by simp; omega)]
    rw [listGetD_append_lt ofs [of1] x.open_file default hlt]
    have := hwofs (ofs.getD x.open_file default) (listGetD_mem ofs x.open_file default hlt)
    rw [beq_eq_false_iff_ne]
    omega
  · rw [hfdN]
    rw [listGetD_append_lt (ofs ++ [of1]) [of2] ofs.length default (by simp)]
    rw [listGetD_append_len]
    rw [h1]
    exact beq_self_eq_true nI

/-- C9 counterexample: `open("/null", CREATE)` creates an inode whose
`name` is "null" (the same name the kernel uses for its not-found
placeholder), so although "/null" is then present in the dentry cache,
the immediately following `open("/null", 0)` returns −1 instead of the
first call's fd index 3 — no de-duplicated slot, no same index. -/
theorem clm_open_dedup_counterexample :
    (sys_openat initFs 0 "/null" 64).2 = 3 ∧
    dcGet "/null" (sys_openat initFs 0 "/null" 64).1.dentry = some 3 ∧
    (sys_openat (sys_openat initFs 0 "/null" 64).1 0 "/null" 0).2 = -1 := by
  decide

/-- C9 amended: for every path whose cached inode is not named "null"
(the kernel's not-found placeholder name, for which `open` instead
fails with −1): on a cache hit, `open` scans the caller's fd table for
an existing descriptor whose `OpenFile` references the same inode and,
when one exists, returns that slot's index; consequently
`open(path, CREATE)` immediately followed by `open(path, 0)` from the
same well-formed process state returns the same fd index — the slot
the first call appended — rather than a second independent
descriptor. -/
theorem clm_open_dedup_amended (s : FsState) (dirfd : Int) (path : String)
    (hwf : FsWF s) :
    (∀ flags iid i,
      dcGet (absPath s.cwd path) s.dentry = some iid →
      inodeName s iid ≠ "null" →
      firstIdx (fun d => fdInode s d == iid) s.fdTable = some i →
      (sys_openat s dirfd path flags).2 = (i : Int) ∧
      (sys_openat s dirfd path flags).1.fdTable =
        s.fdTable.set i ⟨s.openFiles.length, openReadable flags, openWritable flags⟩ ∧
      ((sys_openat s dirfd path flags).1.openFiles.getD s.openFiles.length
        default).inode = iid) ∧
    (∀ fl1 fl2,
      dcGet (absPath s.cwd path) s.dentry = none →
      (pathSplit s.cwd path).2 ≠ "null" →
      (sys_openat s dirfd path fl1).2 = (s.fdTable.length : Int) ∧
      (sys_openat (sys_openat s dirfd path fl1).1 dirfd path fl2).2 =
        (sys_openat s dirfd path fl1).2) := by
  constructor
  · intro flags iid i hget hname hfind
    unfold absPath at hget
    have hcongr :
        firstIdx
          (fun d => fdInode { s with openFiles := s.openFiles ++ [⟨0, flags, iid⟩] } d == iid)
          s.fdTable =
          firstIdx (fun d => fdInode s d == iid) s.fdTable := by
      apply firstIdx_congr
      intro d hd
      rw [fdInode_append_openFiles (hwf.1 d hd)]
    have hopen : sys_openat s dirfd path flags =
        ({ inodes := s.inodes,
           openFiles := s.openFiles ++ [⟨0, flags, iid⟩],
           dentry := s.dentry,
           globalOpen := s.globalOpen,
           buffers := s.buffers,
           fdTable := s.fdTable.set i
             ⟨s.openFiles.length, openReadable flags, openWritable flags⟩,
           cwd := s.cwd }, (i : Int)) := by
      unfold sys_openat
      dsimp only
      rw [hget]
      dsimp only
      rw [if_neg hname]
      rw [hcongr, hfind]
    refine ⟨by rw [hopen], by rw [hopen], ?_⟩
    rw [hopen]
    dsimp only
    rw [listGetD_append_len]
  · intro fl1 fl2 hget hname
    unfold absPath at hget
    have h1 : sys_openat s dirfd path fl1 =
        ({ inodes := s.inodes ++
              [⟨(pathSplit s.cwd path).2, (pathSplit s.cwd path).1, .reg [], none⟩],
           openFiles := s.openFiles ++ [⟨0, fl1, s.inodes.length⟩],
           dentry := dcInsert ((pathSplit s.cwd path).1 ++ (pathSplit s.cwd path).2)
             s.inodes.length s.dentry,
           globalOpen := s.globalOpen ++ [⟨0, fl1, s.inodes.length⟩],
           buffers := s.buffers,
           fdTable := s.fdTable ++
             [⟨s.openFiles.length, openReadable fl1, openWritable fl1⟩],
           cwd := s.cwd }, (s.fdTable.length : Int)) := by
      unfold sys_openat
      dsimp only
      rw [hget]
    refine ⟨by rw [h1], ?_⟩
    rw [h1]
    dsimp only
    unfold sys_openat
    dsimp only
    rw [dcGet_dcInsert_self]
    dsimp only
    have hnm : ¬(inodeName
        { inodes := s.inodes ++
            [⟨(pathSplit s.cwd path).2, (pathSplit s.cwd path).1, .reg [], none⟩],
          openFiles := s.openFiles ++ [(⟨0, fl1, s.inodes.length⟩ : OpenFileV)],
          dentry := dcInsert ((pathSplit s.cwd path).1 ++ (pathSplit s.cwd path).2)
            s.inodes.length s.dentry,
          globalOpen := s.globalOpen ++ [(⟨0, fl1, s.inodes.length⟩ : OpenFileV)],
          buffers := s.buffers,
          fdTable := s.fdTable ++
            [(⟨s.openFiles.length, openReadable fl1, openWritable fl1⟩ : FileDescriptorV)],
          cwd := s.cwd } s.inodes.length = "null") := by
      unfold inodeName
      dsimp only
      rw [listGetD_append_len]
      exact hname
    rw [if_neg hnm]
    have hscan := scan_append_fresh s.openFiles s.fdTable s.inodes.length
      hwf.1 hwf.2 ⟨0, fl1, s.inodes.length⟩ ⟨0, fl2, s.inodes.length⟩ rfl
      ⟨s.openFiles.length, openReadable fl1, openWritable fl1⟩ rfl
    simp only [fdInode_def]
    rw [hscan]

/-- Witness for C9 (amended): `open("/a", CREATE)` then `open("/a", 0)`
on the initial state returns fd 3 both times. -/
theorem clm_open_dedup_amended_witness :
    (sys_openat initFs 0 "/a" 64).2 = 3 ∧
    (sys_openat (sys_openat initFs 0 "/a" 64).1 0 "/a" 0).2 =
      (sys_openat initFs 0 "/a" 64).2 := by
  have h := (clm_open_dedup_amended initFs 0 "/a" (by decide)).2 64 0
    (by decide) (by decide)
  exact ⟨h.1, h.2⟩

end NaiveOS
